import Mathlib

/-!
Shallow embedding of
`packages/react-native/ReactCommon/react/renderer/observers/events/EventPerformanceLogger.cpp`
(the React Native event performance logger).

Modelling conventions:
* `EventTag` is a natural number; the global counter `sCurrentEventTag_` is
  part of the logger state and `createEventTag` increments it.
* `SharedEventTarget` is modelled as `Option SurfaceId`: a null pointer is
  `none`, otherwise only `getSurfaceId()` is ever consulted.
* `RootShadowNode::Shared` is likewise modelled as `Option SurfaceId`.
* `HighResTimeStamp` values are modelled as integers; each entry point that
  calls `getCurrentTimeStamp()` takes the sampled value as a `now` argument.
* The weakly referenced `PerformanceEntryReporter` is modelled by a boolean
  `reporterAlive` argument (whether `performanceEntryReporter_.lock()`
  succeeds) plus an explicit list of the `reportEvent` calls an entry point
  performs, paired with the tag of the record being reported.
* `std::unordered_map<EventTag, EventEntry> eventsInFlight_` is modelled as an
  association list; its iteration order is the list order (the C++ iteration
  order is unspecified, and no claim depends on it).
* The `std::unordered_set<SurfaceId>` argument of
  `dispatchPendingEventTimingEntries` is modelled as a list queried by
  membership.
* `StrKey` compares precomputed `std::hash<std::string_view>` values, never
  the strings themselves; the hash function is a parameter `h` of the model.
* `react_native_assert` conditions are modelled as separate boolean
  predicates (`...AssertOk`); the operational definitions themselves behave
  as the release build does (the assert is a no-op).
-/

namespace EventPerformanceLogger

abbrev EventTag := Nat
abbrev SurfaceId := Int

/-- Modelled from the spec: the reserved sentinel tag, declared in the header
`EventPerformanceLogger.h` (not part of the sources here); "0 (or a reserved
sentinel empty tag) denotes event not tracked". -/
def EMPTY_EVENT_TAG : EventTag := 0

/-- Modelled from the spec: the `EventEntry` struct declared in the header
`EventPerformanceLogger.h` (not part of the sources here). Per the spec's data
model: reported name (immutable), possibly-null target, start time, optional
processing start/end times, interaction id, and the waiting-for-mount flag
(false until the correlator decides the visual effect has not committed). -/
structure EventEntry where
  name : String
  target : Option SurfaceId
  startTime : Int
  processingStartTime : Option Int
  processingEndTime : Option Int
  interactionId : Nat
  isWaitingForMount : Bool
deriving Repr, DecidableEq

/-- Modelled from the spec: `EventEntry::isWaitingForDispatch`, declared in the
header (not part of the sources here): a record is "not yet ready to dispatch"
iff `processingStartTime` or `processingEndTime` is still missing. -/
def EventEntry.isWaitingForDispatch (e : EventEntry) : Bool :=
  e.processingStartTime.isNone || e.processingEndTime.isNone

/-- `isTargetInRootShadowNode` (EventPerformanceLogger.cpp lines 20-25):
`target && rootShadowNode && target->getSurfaceId() == rootShadowNode->getSurfaceId()`. -/
def isTargetInRootShadowNode (target : Option SurfaceId)
    (rootShadowNode : Option SurfaceId) : Bool :=
  match target, rootShadowNode with
  | some ts, some rs => ts == rs
  | _, _ => false

/-- `hasPendingRenderingUpdates` (lines 27-33): `target != nullptr &&
surfaceIdsWithPendingRenderingUpdates.contains(target->getSurfaceId())`. -/
def hasPendingRenderingUpdates (target : Option SurfaceId)
    (surfaceIdsWithPendingRenderingUpdates : List SurfaceId) : Bool :=
  match target with
  | none => false
  | some ts => surfaceIdsWithPendingRenderingUpdates.contains ts

/-- The static supported-event registry `SUPPORTED_EVENTS` (lines 57-97), as
the list of (raw platform name, reported public name) pairs, in source order. -/
def SUPPORTED_EVENTS : List (String × String) :=
  [("topAuxClick", "auxclick"),
   ("topClick", "click"),
   ("topContextMenu", "contextmenu"),
   ("topDblClick", "dblclick"),
   ("topMouseDown", "mousedown"),
   ("topMouseEnter", "mouseenter"),
   ("topMouseLeave", "mouseleave"),
   ("topMouseOut", "mouseout"),
   ("topMouseOver", "mouseover"),
   ("topMouseUp", "mouseup"),
   ("topPointerOver", "pointerover"),
   ("topPointerEnter", "pointerenter"),
   ("topPointerDown", "pointerdown"),
   ("topPointerUp", "pointerup"),
   ("topPointerCancel", "pointercancel"),
   ("topPointerOut", "pointerout"),
   ("topPointerLeave", "pointerleave"),
   ("topGotPointerCapture", "gotpointercapture"),
   ("topLostPointerCapture", "lostpointercapture"),
   ("topTouchStart", "touchstart"),
   ("topTouchEnd", "touchend"),
   ("topTouchCancel", "touchcancel"),
   ("topKeyDown", "keydown"),
   ("topKeyPress", "keypress"),
   ("topKeyUp", "keyup"),
   ("topBeforeInput", "beforeinput"),
   ("topInput", "input"),
   ("topCompositionStart", "compositionstart"),
   ("topCompositionUpdate", "compositionupdate"),
   ("topCompositionEnd", "compositionend"),
   ("topDragStart", "dragstart"),
   ("topDragEnd", "dragend"),
   ("topDragEnter", "dragenter"),
   ("topDragLeave", "dragleave"),
   ("topDragOver", "dragover"),
   ("topDrop", "drop")]

/-- `getSupportedEvents().find(name)` (lines 114-120): the registry is an
`unordered_map` keyed by `StrKey`, whose `operator==` compares the precomputed
`std::hash<std::string_view>` values `h name` only, never the strings. Returns
the reported name of the first registry entry whose key hash equals the hash
of `name`. -/
def findSupportedEvent (h : String → Nat) (name : String) : Option String :=
  (SUPPORTED_EVENTS.find? (fun p => h p.1 == h name)).map (fun p => p.2)

/-- The logger's mutable state: the `eventsInFlight_` table and the tag
counter `sCurrentEventTag_` (static, initially 0; `createEventTag` at lines
248-251 pre-increments and returns it). -/
structure LoggerState where
  eventsInFlight : List (EventTag × EventEntry)
  sCurrentEventTag : EventTag
deriving Repr, DecidableEq

def initState : LoggerState := ⟨[], 0⟩

/-- One argument tuple of a `performanceEntryReporter->reportEvent(...)` call
(name, startTime, duration, processingStart, processingEnd, interactionId). -/
structure ReportedEvent where
  name : String
  startTime : Int
  duration : Int
  processingStart : Int
  processingEnd : Int
  interactionId : Nat
deriving Repr, DecidableEq

/-- `onEventStart` (lines 105-135). `h` is the string hash used by the
registry keys, `reporterAlive` whether the weak reporter lock succeeds, `now`
the value `getCurrentTimeStamp()` would return. Returns the tag handed back to
the caller and the new state. -/
def onEventStart (h : String → Nat) (reporterAlive : Bool) (name : String)
    (target : Option SurfaceId) (eventStartTimeStamp : Option Int) (now : Int)
    (s : LoggerState) : EventTag × LoggerState :=
  if !reporterAlive then
    (EMPTY_EVENT_TAG, s)
  else
    match findSupportedEvent h name with
    | none => (0, s)
    | some reportedName =>
      let eventTag := s.sCurrentEventTag + 1
      let timeStamp := eventStartTimeStamp.getD now
      (eventTag,
        { eventsInFlight :=
            s.eventsInFlight ++ [(eventTag, ⟨reportedName, target, timeStamp, none, none, 0, false⟩)],
          sCurrentEventTag := eventTag })

/-- `onEventProcessingStart` (lines 137-151): if the reporter is alive and the
tag is present, stamps `processingStartTime` with the current time. -/
def onEventProcessingStart (reporterAlive : Bool) (tag : EventTag) (now : Int)
    (s : LoggerState) : LoggerState :=
  if !reporterAlive then s
  else
    { s with
      eventsInFlight := s.eventsInFlight.map (fun p =>
        if p.1 = tag then (p.1, { p.2 with processingStartTime := some now }) else p) }

/-- `onEventProcessingEnd` (lines 153-173): if the reporter is alive and the
tag is present, stamps `processingEndTime` with the current time (the
`react_native_assert` is modelled by `onEventProcessingEndAssertOk`). -/
def onEventProcessingEnd (reporterAlive : Bool) (tag : EventTag) (now : Int)
    (s : LoggerState) : LoggerState :=
  if !reporterAlive then s
  else
    { s with
      eventsInFlight := s.eventsInFlight.map (fun p =>
        if p.1 = tag then (p.1, { p.2 with processingEndTime := some now }) else p) }

/-- The `react_native_assert(entry.processingStartTime.has_value())` at lines
168-170: holds unless the reporter is alive, the tag is found, and that
entry's `processingStartTime` is unset. -/
def onEventProcessingEndAssertOk (reporterAlive : Bool) (tag : EventTag)
    (s : LoggerState) : Bool :=
  if !reporterAlive then true
  else
    match s.eventsInFlight.find? (fun p => p.1 == tag) with
    | none => true
    | some p => p.2.processingStartTime.isSome

/-- The `reportEvent` argument tuple built by the report branch of
`dispatchPendingEventTimingEntries` (lines 202-208): the duration is
`getCurrentTimeStamp() - entry.startTime` and the processing timestamps are
`.value()` of the optionals (modelled as `getD 0`; the asserts guarantee they
are set). -/
def dispatchReport (now : Int) (e : EventEntry) : ReportedEvent :=
  ⟨e.name, e.startTime, now - e.startTime, e.processingStartTime.getD 0,
    e.processingEndTime.getD 0, e.interactionId⟩

/-- The loop body of `dispatchPendingEventTimingEntries` (lines 184-211),
applied down the table: each entry is kept unchanged (waiting for dispatch or
already waiting for mount), kept with `isWaitingForMount` set to true (its
target's surface has pending rendering updates), or reported and erased.
Returns the surviving table and the list of (tag, reportEvent arguments). -/
def dispatchEntries (surfaceIdsWithPendingRenderingUpdates : List SurfaceId)
    (now : Int) :
    List (EventTag × EventEntry) →
      List (EventTag × EventEntry) × List (EventTag × ReportedEvent)
  | [] => ([], [])
  | (tag, entry) :: rest =>
    let r := dispatchEntries surfaceIdsWithPendingRenderingUpdates now rest
    if entry.isWaitingForDispatch || entry.isWaitingForMount then
      ((tag, entry) :: r.1, r.2)
    else if hasPendingRenderingUpdates entry.target
        surfaceIdsWithPendingRenderingUpdates then
      ((tag, { entry with isWaitingForMount := true }) :: r.1, r.2)
    else
      (r.1, (tag, dispatchReport now entry) :: r.2)

/-- The two `react_native_assert`s in the report branch of
`dispatchPendingEventTimingEntries` (lines 196-201): every entry reaching the
report branch has both processing timestamps set. -/
def dispatchEntriesAssertOk (surfaceIdsWithPendingRenderingUpdates : List SurfaceId) :
    List (EventTag × EventEntry) → Bool
  | [] => true
  | (_, entry) :: rest =>
    (if entry.isWaitingForDispatch || entry.isWaitingForMount then true
     else if hasPendingRenderingUpdates entry.target
         surfaceIdsWithPendingRenderingUpdates then true
     else entry.processingStartTime.isSome && entry.processingEndTime.isSome)
    && dispatchEntriesAssertOk surfaceIdsWithPendingRenderingUpdates rest

/-- `dispatchPendingEventTimingEntries` (lines 175-212). `now` is the sampled
`getCurrentTimeStamp()` value used for the duration of each reported entry. -/
def dispatchPendingEventTimingEntries (reporterAlive : Bool)
    (surfaceIdsWithPendingRenderingUpdates : List SurfaceId) (now : Int)
    (s : LoggerState) : LoggerState × List (EventTag × ReportedEvent) :=
  if !reporterAlive then (s, [])
  else
    let r := dispatchEntries surfaceIdsWithPendingRenderingUpdates now s.eventsInFlight
    ({ s with eventsInFlight := r.1 }, r.2)

/-- The `reportEvent` argument tuple built by the report branch of
`shadowTreeDidMount` (lines 234-240): the duration is
`mountTime - entry.startTime`. -/
def mountReport (mountTime : Int) (e : EventEntry) : ReportedEvent :=
  ⟨e.name, e.startTime, mountTime - e.startTime, e.processingStartTime.getD 0,
    e.processingEndTime.getD 0, e.interactionId⟩

/-- The loop body of `shadowTreeDidMount` (lines 223-245), applied down the
table: entries marked waiting-for-mount whose target is in the root shadow
node are reported (with duration `mountTime - startTime`) and erased; all
others are kept unchanged. -/
def mountEntries (rootShadowNode : Option SurfaceId) (mountTime : Int) :
    List (EventTag × EventEntry) →
      List (EventTag × EventEntry) × List (EventTag × ReportedEvent)
  | [] => ([], [])
  | (tag, entry) :: rest =>
    let r := mountEntries rootShadowNode mountTime rest
    if entry.isWaitingForMount && isTargetInRootShadowNode entry.target rootShadowNode then
      (r.1, (tag, mountReport mountTime entry) :: r.2)
    else
      ((tag, entry) :: r.1, r.2)

/-- The two `react_native_assert`s in the report branch of `shadowTreeDidMount`
(lines 228-233): every reported entry has both processing timestamps set. -/
def mountEntriesAssertOk (rootShadowNode : Option SurfaceId) :
    List (EventTag × EventEntry) → Bool
  | [] => true
  | (_, entry) :: rest =>
    (if entry.isWaitingForMount && isTargetInRootShadowNode entry.target rootShadowNode then
      entry.processingStartTime.isSome && entry.processingEndTime.isSome
     else true)
    && mountEntriesAssertOk rootShadowNode rest

/-- `shadowTreeDidMount` (lines 214-246). -/
def shadowTreeDidMount (reporterAlive : Bool) (rootShadowNode : Option SurfaceId)
    (mountTime : Int) (s : LoggerState) :
    LoggerState × List (EventTag × ReportedEvent) :=
  if !reporterAlive then (s, [])
  else
    let r := mountEntries rootShadowNode mountTime s.eventsInFlight
    ({ s with eventsInFlight := r.1 }, r.2)

/-- One invocation of a public entry point, with the externally supplied data
it consumes: whether the weak reporter lock succeeds, and the timestamps the
reporter would hand back. -/
inductive Op where
  | start (reporterAlive : Bool) (name : String) (target : Option SurfaceId)
      (eventStartTimeStamp : Option Int) (now : Int)
  | procStart (reporterAlive : Bool) (tag : EventTag) (now : Int)
  | procEnd (reporterAlive : Bool) (tag : EventTag) (now : Int)
  | dispatch (reporterAlive : Bool) (pending : List SurfaceId) (now : Int)
  | mount (reporterAlive : Bool) (rootShadowNode : Option SurfaceId) (mountTime : Int)

/-- Apply one entry-point invocation to the state; returns the new state and
the (tag, reportEvent arguments) pairs this invocation reported. -/
def step (h : String → Nat) (s : LoggerState) :
    Op → LoggerState × List (EventTag × ReportedEvent)
  | .start reporterAlive name target ts now =>
    ((onEventStart h reporterAlive name target ts now s).2, [])
  | .procStart reporterAlive tag now =>
    (onEventProcessingStart reporterAlive tag now s, [])
  | .procEnd reporterAlive tag now =>
    (onEventProcessingEnd reporterAlive tag now s, [])
  | .dispatch reporterAlive pending now =>
    dispatchPendingEventTimingEntries reporterAlive pending now s
  | .mount reporterAlive root mountTime =>
    shadowTreeDidMount reporterAlive root mountTime s

/-- Run a sequence of entry-point invocations from a state, accumulating every
(tag, reportEvent arguments) pair passed to the reporting sink. -/
def run (h : String → Nat) (s : LoggerState) :
    List Op → LoggerState × List (EventTag × ReportedEvent)
  | [] => (s, [])
  | op :: ops =>
    let r := step h s op
    let r' := run h r.1 ops
    (r'.1, r.2 ++ r'.2)

/-! ### Generic lemmas about association lists keyed by tags -/

theorem mem_eq_of_nodup_keys {α : Type _} {l : List (EventTag × α)}
    (hnd : (l.map Prod.fst).Nodup) {tag : EventTag} {a b : α}
    (ha : (tag, a) ∈ l) (hb : (tag, b) ∈ l) : a = b := by
  induction l with
  | nil => cases ha
  | cons hd tl ih =>
    simp only [List.map_cons, List.nodup_cons] at hnd
    rcases List.mem_cons.mp ha with ha' | ha' <;>
      rcases List.mem_cons.mp hb with hb' | hb'
    · exact congrArg Prod.snd (ha'.trans hb'.symm)
    · exact absurd (List.mem_map.mpr ⟨(tag, b), hb', by rw [← ha']⟩) hnd.1
    · exact absurd (List.mem_map.mpr ⟨(tag, a), ha', by rw [← hb']⟩) hnd.1
    · exact ih hnd.2 ha' hb'

theorem map_fst_update {f : EventEntry → EventEntry} {tag : EventTag}
    (l : List (EventTag × EventEntry)) :
    ((l.map (fun p => if p.1 = tag then (p.1, f p.2) else p)).map Prod.fst) =
      l.map Prod.fst := by
  rw [List.map_map]
  refine List.map_congr_left fun p _ => ?_
  by_cases hp : p.1 = tag <;> simp [hp]

theorem mem_update_src {f : EventEntry → EventEntry} {tag tag' : EventTag}
    {e' : EventEntry} {l : List (EventTag × EventEntry)}
    (hmem : (tag', e') ∈ l.map (fun p => if p.1 = tag then (p.1, f p.2) else p)) :
    ∃ e, (tag', e) ∈ l ∧ ((tag' = tag ∧ e' = f e) ∨ (tag' ≠ tag ∧ e' = e)) := by
  rcases List.mem_map.mp hmem with ⟨⟨t, e⟩, hel, heq⟩
  by_cases ht : t = tag
  · subst ht
    rw [if_pos rfl] at heq
    injection heq with h1 h2
    subst h1
    exact ⟨e, hel, Or.inl ⟨rfl, h2.symm⟩⟩
  · rw [if_neg ht] at heq
    injection heq with h1 h2
    subst h1
    subst h2
    exact ⟨e, hel, Or.inr ⟨ht, rfl⟩⟩

/-! ### Lemmas about the dispatch loop -/

theorem dispatchEntries_perm (p : List SurfaceId) (n : Int)
    (l : List (EventTag × EventEntry)) :
    ((dispatchEntries p n l).1.map Prod.fst ++
      (dispatchEntries p n l).2.map Prod.fst).Perm (l.map Prod.fst) := by
  induction l with
  | nil => simp [dispatchEntries]
  | cons hd tl ih =>
    obtain ⟨tag, e⟩ := hd
    simp only [dispatchEntries]
    split_ifs with h1 h2
    · simpa using ih.cons tag
    · simpa using ih.cons tag
    · refine List.Perm.trans ?_ (ih.cons tag)
      simp only [List.map_cons]
      exact List.perm_middle

theorem dispatchEntries_kept_src {p : List SurfaceId} {n : Int}
    {l : List (EventTag × EventEntry)} {tag : EventTag} {e' : EventEntry}
    (hmem : (tag, e') ∈ (dispatchEntries p n l).1) :
    ∃ e, (tag, e) ∈ l ∧
      (e' = e ∨
        (e' = { e with isWaitingForMount := true } ∧
          e.isWaitingForDispatch = false ∧ e.isWaitingForMount = false ∧
          hasPendingRenderingUpdates e.target p = true)) := by
  induction l with
  | nil => simp [dispatchEntries] at hmem
  | cons hd tl ih =>
    obtain ⟨tag', e''⟩ := hd
    simp only [dispatchEntries] at hmem
    split_ifs at hmem with h1 h2
    · rcases List.mem_cons.mp hmem with h | h
      · obtain ⟨h3, h4⟩ := Prod.mk.injEq _ _ _ _ ▸ h
        exact ⟨e'', by simp [h3], Or.inl h4⟩
      · rcases ih h with ⟨e, he, hcase⟩
        exact ⟨e, List.mem_cons_of_mem _ he, hcase⟩
    · rcases List.mem_cons.mp hmem with h | h
      · obtain ⟨hA, hB⟩ : e''.isWaitingForDispatch = false ∧ e''.isWaitingForMount = false := by
          simpa using h1
        injection h with h3 h4
        subst h3
        exact ⟨e'', List.mem_cons_self _ _, Or.inr ⟨h4, hA, hB, h2⟩⟩
      · rcases ih h with ⟨e, he, hcase⟩
        exact ⟨e, List.mem_cons_of_mem _ he, hcase⟩
    · rcases ih hmem with ⟨e, he, hcase⟩
      exact ⟨e, List.mem_cons_of_mem _ he, hcase⟩

theorem dispatchEntries_report_src {p : List SurfaceId} {n : Int}
    {l : List (EventTag × EventEntry)} {tag : EventTag} {r : ReportedEvent}
    (hmem : (tag, r) ∈ (dispatchEntries p n l).2) :
    ∃ e, (tag, e) ∈ l ∧ e.isWaitingForDispatch = false ∧
      e.isWaitingForMount = false ∧
      hasPendingRenderingUpdates e.target p = false ∧ r = dispatchReport n e := by
  induction l with
  | nil => simp [dispatchEntries] at hmem
  | cons hd tl ih =>
    obtain ⟨tag', e''⟩ := hd
    simp only [dispatchEntries] at hmem
    split_ifs at hmem with h1 h2
    · rcases ih hmem with ⟨e, he, hcase⟩
      exact ⟨e, List.mem_cons_of_mem _ he, hcase⟩
    · rcases ih hmem with ⟨e, he, hcase⟩
      exact ⟨e, List.mem_cons_of_mem _ he, hcase⟩
    · rcases List.mem_cons.mp hmem with h | h
      · obtain ⟨hA, hB⟩ : e''.isWaitingForDispatch = false ∧ e''.isWaitingForMount = false := by
          simpa using h1
        have hC : hasPendingRenderingUpdates e''.target p = false := by simpa using h2
        injection h with h3 h4
        subst h3
        exact ⟨e'', List.mem_cons_self _ _, hA, hB, hC, h4⟩
      · rcases ih h with ⟨e, he, hcase⟩
        exact ⟨e, List.mem_cons_of_mem _ he, hcase⟩

theorem dispatchEntries_mem_skip {p : List SurfaceId} {n : Int}
    {l : List (EventTag × EventEntry)} {tag : EventTag} {e : EventEntry}
    (hmem : (tag, e) ∈ l)
    (hcond : (e.isWaitingForDispatch || e.isWaitingForMount) = true) :
    (tag, e) ∈ (dispatchEntries p n l).1 := by
  induction l with
  | nil => cases hmem
  | cons hd tl ih =>
    obtain ⟨tag', e''⟩ := hd
    simp only [dispatchEntries]
    rcases List.mem_cons.mp hmem with h | h
    · obtain ⟨h3, h4⟩ := Prod.mk.injEq _ _ _ _ ▸ h
      subst h3; subst h4
      rw [if_pos hcond]
      exact List.mem_cons_self _ _
    · split_ifs with h1 h2
      · exact List.mem_cons_of_mem _ (ih h)
      · exact List.mem_cons_of_mem _ (ih h)
      · exact ih h

theorem dispatchEntries_mem_defer {p : List SurfaceId} {n : Int}
    {l : List (EventTag × EventEntry)} {tag : EventTag} {e : EventEntry}
    (hmem : (tag, e) ∈ l) (h1 : e.isWaitingForDispatch = false)
    (h2 : e.isWaitingForMount = false)
    (h3 : hasPendingRenderingUpdates e.target p = true) :
    (tag, { e with isWaitingForMount := true }) ∈ (dispatchEntries p n l).1 := by
  induction l with
  | nil => cases hmem
  | cons hd tl ih =>
    obtain ⟨tag', e''⟩ := hd
    simp only [dispatchEntries]
    rcases List.mem_cons.mp hmem with h | h
    · obtain ⟨ha, hb⟩ := Prod.mk.injEq _ _ _ _ ▸ h
      subst ha; subst hb
      rw [if_neg (by simp [h1, h2]), if_pos h3]
      exact List.mem_cons_self _ _
    · split_ifs with hc hd'
      · exact List.mem_cons_of_mem _ (ih h)
      · exact List.mem_cons_of_mem _ (ih h)
      · exact ih h

theorem dispatchEntries_mem_report {p : List SurfaceId} {n : Int}
    {l : List (EventTag × EventEntry)} {tag : EventTag} {e : EventEntry}
    (hmem : (tag, e) ∈ l) (h1 : e.isWaitingForDispatch = false)
    (h2 : e.isWaitingForMount = false)
    (h3 : hasPendingRenderingUpdates e.target p = false) :
    (tag, dispatchReport n e) ∈ (dispatchEntries p n l).2 := by
  induction l with
  | nil => cases hmem
  | cons hd tl ih =>
    obtain ⟨tag', e''⟩ := hd
    simp only [dispatchEntries]
    rcases List.mem_cons.mp hmem with h | h
    · obtain ⟨ha, hb⟩ := Prod.mk.injEq _ _ _ _ ▸ h
      subst ha; subst hb
      rw [if_neg (by simp [h1, h2]), if_neg (by simp [h3])]
      exact List.mem_cons_self _ _
    · split_ifs with hc hd'
      · exact ih h
      · exact ih h
      · exact List.mem_cons_of_mem _ (ih h)

/-! ### Lemmas about the mount loop -/

theorem mountEntries_perm (root : Option SurfaceId) (mt : Int)
    (l : List (EventTag × EventEntry)) :
    ((mountEntries root mt l).1.map Prod.fst ++
      (mountEntries root mt l).2.map Prod.fst).Perm (l.map Prod.fst) := by
  induction l with
  | nil => simp [mountEntries]
  | cons hd tl ih =>
    obtain ⟨tag, e⟩ := hd
    simp only [mountEntries]
    split_ifs with h1
    · refine List.Perm.trans ?_ (ih.cons tag)
      simp only [List.map_cons]
      exact List.perm_middle
    · simpa using ih.cons tag

theorem mountEntries_kept_src {root : Option SurfaceId} {mt : Int}
    {l : List (EventTag × EventEntry)} {tag : EventTag} {e : EventEntry}
    (hmem : (tag, e) ∈ (mountEntries root mt l).1) :
    (tag, e) ∈ l ∧
      (e.isWaitingForMount && isTargetInRootShadowNode e.target root) = false := by
  induction l with
  | nil => simp [mountEntries] at hmem
  | cons hd tl ih =>
    obtain ⟨tag', e''⟩ := hd
    simp only [mountEntries] at hmem
    split_ifs at hmem with h1
    · rcases ih hmem with ⟨ha, hb⟩
      exact ⟨List.mem_cons_of_mem _ ha, hb⟩
    · rcases List.mem_cons.mp hmem with h | h
      · injection h with h3 h4
        subst h3; subst h4
        exact ⟨List.mem_cons_self _ _, by simpa using h1⟩
      · rcases ih h with ⟨ha, hb⟩
        exact ⟨List.mem_cons_of_mem _ ha, hb⟩

theorem mountEntries_report_src {root : Option SurfaceId} {mt : Int}
    {l : List (EventTag × EventEntry)} {tag : EventTag} {r : ReportedEvent}
    (hmem : (tag, r) ∈ (mountEntries root mt l).2) :
    ∃ e, (tag, e) ∈ l ∧ e.isWaitingForMount = true ∧
      isTargetInRootShadowNode e.target root = true ∧ r = mountReport mt e := by
  induction l with
  | nil => simp [mountEntries] at hmem
  | cons hd tl ih =>
    obtain ⟨tag', e''⟩ := hd
    simp only [mountEntries] at hmem
    split_ifs at hmem with h1
    · rcases List.mem_cons.mp hmem with h | h
      · obtain ⟨hA, hB⟩ := Bool.and_eq_true_iff.mp h1
        injection h with h3 h4
        subst h3
        exact ⟨e'', List.mem_cons_self _ _, hA, hB, h4⟩
      · rcases ih h with ⟨e, he, hcase⟩
        exact ⟨e, List.mem_cons_of_mem _ he, hcase⟩
    · rcases ih hmem with ⟨e, he, hcase⟩
      exact ⟨e, List.mem_cons_of_mem _ he, hcase⟩

theorem mountEntries_mem_kept {root : Option SurfaceId} {mt : Int}
    {l : List (EventTag × EventEntry)} {tag : EventTag} {e : EventEntry}
    (hmem : (tag, e) ∈ l)
    (hcond : (e.isWaitingForMount && isTargetInRootShadowNode e.target root) = false) :
    (tag, e) ∈ (mountEntries root mt l).1 := by
  induction l with
  | nil => cases hmem
  | cons hd tl ih =>
    obtain ⟨tag', e''⟩ := hd
    simp only [mountEntries]
    rcases List.mem_cons.mp hmem with h | h
    · injection h with h3 h4
      subst h3; subst h4
      rw [if_neg (by simp [hcond])]
      exact List.mem_cons_self _ _
    · split_ifs with h1
      · exact ih h
      · exact List.mem_cons_of_mem _ (ih h)

theorem mountEntries_mem_report {root : Option SurfaceId} {mt : Int}
    {l : List (EventTag × EventEntry)} {tag : EventTag} {e : EventEntry}
    (hmem : (tag, e) ∈ l) (h1 : e.isWaitingForMount = true)
    (h2 : isTargetInRootShadowNode e.target root = true) :
    (tag, mountReport mt e) ∈ (mountEntries root mt l).2 := by
  induction l with
  | nil => cases hmem
  | cons hd tl ih =>
    obtain ⟨tag', e''⟩ := hd
    simp only [mountEntries]
    rcases List.mem_cons.mp hmem with h | h
    · injection h with h3 h4
      subst h3; subst h4
      rw [if_pos (by simp [h1, h2])]
      exact List.mem_cons_self _ _
    · split_ifs with hc
      · exact List.mem_cons_of_mem _ (ih h)
      · exact ih h

/-! ### Nodup consequences of the permutation lemmas -/

theorem dispatchEntries_nodup_parts {p : List SurfaceId} {n : Int}
    {l : List (EventTag × EventEntry)} (hnd : (l.map Prod.fst).Nodup) :
    ((dispatchEntries p n l).1.map Prod.fst).Nodup ∧
      ((dispatchEntries p n l).2.map Prod.fst).Nodup ∧
      ∀ t ∈ (dispatchEntries p n l).2.map Prod.fst,
        t ∉ (dispatchEntries p n l).1.map Prod.fst := by
  have h := ((dispatchEntries_perm p n l).symm.nodup_iff.mp hnd)
  rcases List.nodup_append.mp h with ⟨h1, h2, h3⟩
  exact ⟨h1, h2, fun t ht ht' => h3 ht' ht⟩

theorem mountEntries_nodup_parts {root : Option SurfaceId} {mt : Int}
    {l : List (EventTag × EventEntry)} (hnd : (l.map Prod.fst).Nodup) :
    ((mountEntries root mt l).1.map Prod.fst).Nodup ∧
      ((mountEntries root mt l).2.map Prod.fst).Nodup ∧
      ∀ t ∈ (mountEntries root mt l).2.map Prod.fst,
        t ∉ (mountEntries root mt l).1.map Prod.fst := by
  have h := ((mountEntries_perm root mt l).symm.nodup_iff.mp hnd)
  rcases List.nodup_append.mp h with ⟨h1, h2, h3⟩
  exact ⟨h1, h2, fun t ht ht' => h3 ht' ht⟩

/-! ### Small corollaries -/

theorem isWaitingForDispatch_false_iff (e : EventEntry) :
    e.isWaitingForDispatch = false ↔
      e.processingStartTime.isSome = true ∧ e.processingEndTime.isSome = true := by
  obtain ⟨nm, tg, st, ps, pe, ii, w⟩ := e
  cases ps <;> cases pe <;> simp [EventEntry.isWaitingForDispatch]

theorem dispatchEntries_tag_not_reported {p : List SurfaceId} {n : Int}
    {l : List (EventTag × EventEntry)} {tag : EventTag} {e : EventEntry}
    (hnd : (l.map Prod.fst).Nodup) (hmem : (tag, e) ∈ l)
    (hno : ¬(e.isWaitingForDispatch = false ∧ e.isWaitingForMount = false ∧
      hasPendingRenderingUpdates e.target p = false)) :
    tag ∉ (dispatchEntries p n l).2.map Prod.fst := by
  intro hin
  rcases List.mem_map.mp hin with ⟨⟨t, r⟩, hr, ht⟩
  cases ht
  rcases dispatchEntries_report_src hr with ⟨e', he', h1, h2, h3, _⟩
  cases mem_eq_of_nodup_keys hnd he' hmem
  exact hno ⟨h1, h2, h3⟩

theorem dispatchEntries_tag_removed {p : List SurfaceId} {n : Int}
    {l : List (EventTag × EventEntry)} {tag : EventTag} {e : EventEntry}
    (hnd : (l.map Prod.fst).Nodup) (hmem : (tag, e) ∈ l)
    (h1 : e.isWaitingForDispatch = false) (h2 : e.isWaitingForMount = false)
    (h3 : hasPendingRenderingUpdates e.target p = false) :
    tag ∉ (dispatchEntries p n l).1.map Prod.fst := by
  have hrep : tag ∈ (dispatchEntries p n l).2.map Prod.fst :=
    List.mem_map.mpr ⟨(tag, dispatchReport n e),
      dispatchEntries_mem_report hmem h1 h2 h3, rfl⟩
  exact (dispatchEntries_nodup_parts hnd).2.2 tag hrep

theorem mountEntries_tag_not_reported {root : Option SurfaceId} {mt : Int}
    {l : List (EventTag × EventEntry)} {tag : EventTag} {e : EventEntry}
    (hnd : (l.map Prod.fst).Nodup) (hmem : (tag, e) ∈ l)
    (hno : (e.isWaitingForMount && isTargetInRootShadowNode e.target root) = false) :
    tag ∉ (mountEntries root mt l).2.map Prod.fst := by
  intro hin
  rcases List.mem_map.mp hin with ⟨⟨t, r⟩, hr, ht⟩
  cases ht
  rcases mountEntries_report_src hr with ⟨e', he', h1, h2, _⟩
  cases mem_eq_of_nodup_keys hnd he' hmem
  rw [h1, h2] at hno
  cases hno

theorem mountEntries_tag_removed {root : Option SurfaceId} {mt : Int}
    {l : List (EventTag × EventEntry)} {tag : EventTag} {e : EventEntry}
    (hnd : (l.map Prod.fst).Nodup) (hmem : (tag, e) ∈ l)
    (h1 : e.isWaitingForMount = true)
    (h2 : isTargetInRootShadowNode e.target root = true) :
    tag ∉ (mountEntries root mt l).1.map Prod.fst := by
  have hrep : tag ∈ (mountEntries root mt l).2.map Prod.fst :=
    List.mem_map.mpr ⟨(tag, mountReport mt e),
      mountEntries_mem_report hmem h1 h2, rfl⟩
  exact (mountEntries_nodup_parts hnd).2.2 tag hrep

theorem find_of_nodup_keys {l : List (EventTag × EventEntry)} {tag : EventTag}
    {e : EventEntry} (hnd : (l.map Prod.fst).Nodup) (hmem : (tag, e) ∈ l) :
    l.find? (fun q => q.1 == tag) = some (tag, e) := by
  induction l with
  | nil => cases hmem
  | cons hd tl ih =>
    obtain ⟨t, e''⟩ := hd
    simp only [List.map_cons, List.nodup_cons] at hnd
    by_cases ht : t = tag
    · subst ht
      have : e'' = e := by
        rcases List.mem_cons.mp hmem with h | h
        · exact (congrArg Prod.snd h).symm
        · exact absurd (List.mem_map.mpr ⟨(t, e), h, rfl⟩) hnd.1
      rw [this]
      rw [List.find?_cons_of_pos _ (by simp)]
    · have hmem' : (tag, e) ∈ tl := by
        rcases List.mem_cons.mp hmem with h | h
        · exact absurd (congrArg Prod.fst h).symm ht
        · exact h
      rw [List.find?_cons_of_neg _ (by simpa using ht)]
      exact ih hnd.2 hmem'

/-! ### The state invariant: key bounds, key uniqueness, dead reported tags -/

/-- The reachability invariant tying a logger state to the multiset of tags
reported so far: every live key and every reported tag is bounded by the tag
counter, live keys are pairwise distinct, reported tags are pairwise distinct,
and no reported tag is still live. -/
structure Inv (s : LoggerState) (rep : List EventTag) : Prop where
  keysLe : ∀ q ∈ s.eventsInFlight, q.1 ≤ s.sCurrentEventTag
  keysNodup : (s.eventsInFlight.map Prod.fst).Nodup
  repLe : ∀ t ∈ rep, t ≤ s.sCurrentEventTag
  repNotMem : ∀ t ∈ rep, t ∉ s.eventsInFlight.map Prod.fst
  repNodup : rep.Nodup

theorem inv_init : Inv initState [] := by
  refine ⟨?_, ?_, ?_, ?_, ?_⟩ <;> simp [initState]

theorem onEventStart_some_eq {h : String → Nat} {name rn : String}
    (hfind : findSupportedEvent h name = some rn) (target : Option SurfaceId)
    (ts : Option Int) (now : Int) (s : LoggerState) :
    onEventStart h true name target ts now s =
      (s.sCurrentEventTag + 1,
        ⟨s.eventsInFlight ++
          [(s.sCurrentEventTag + 1, ⟨rn, target, ts.getD now, none, none, 0, false⟩)],
          s.sCurrentEventTag + 1⟩) := by
  simp [onEventStart, hfind]

theorem onEventStart_none_eq {h : String → Nat} {name : String}
    (hfind : findSupportedEvent h name = none) (target : Option SurfaceId)
    (ts : Option Int) (now : Int) (s : LoggerState) :
    onEventStart h true name target ts now s = (0, s) := by
  simp [onEventStart, hfind]

theorem onEventProcessingStart_true_eq (tag : EventTag) (now : Int)
    (s : LoggerState) :
    onEventProcessingStart true tag now s =
      { s with eventsInFlight := s.eventsInFlight.map (fun p =>
          if p.1 = tag then (p.1, { p.2 with processingStartTime := some now })
          else p) } := rfl

theorem onEventProcessingEnd_true_eq (tag : EventTag) (now : Int)
    (s : LoggerState) :
    onEventProcessingEnd true tag now s =
      { s with eventsInFlight := s.eventsInFlight.map (fun p =>
          if p.1 = tag then (p.1, { p.2 with processingEndTime := some now })
          else p) } := rfl

theorem procStart_mem_src {tag : EventTag} {now : Int} {s : LoggerState}
    {t : EventTag} {e' : EventEntry}
    (hq : (t, e') ∈ (onEventProcessingStart true tag now s).eventsInFlight) :
    ∃ e, (t, e) ∈ s.eventsInFlight ∧
      ((t = tag ∧ e' = { e with processingStartTime := some now }) ∨
        (t ≠ tag ∧ e' = e)) :=
  @mem_update_src (fun e => { e with processingStartTime := some now })
    tag t e' s.eventsInFlight hq

theorem procEnd_mem_src {tag : EventTag} {now : Int} {s : LoggerState}
    {t : EventTag} {e' : EventEntry}
    (hq : (t, e') ∈ (onEventProcessingEnd true tag now s).eventsInFlight) :
    ∃ e, (t, e) ∈ s.eventsInFlight ∧
      ((t = tag ∧ e' = { e with processingEndTime := some now }) ∨
        (t ≠ tag ∧ e' = e)) :=
  @mem_update_src (fun e => { e with processingEndTime := some now })
    tag t e' s.eventsInFlight hq

theorem dispatchEntries_keys_subset {p : List SurfaceId} {n : Int}
    {l : List (EventTag × EventEntry)} {t : EventTag}
    (ht : t ∈ (dispatchEntries p n l).1.map Prod.fst) : t ∈ l.map Prod.fst :=
  (dispatchEntries_perm p n l).subset (List.mem_append_left _ ht)

theorem dispatchEntries_tags_subset {p : List SurfaceId} {n : Int}
    {l : List (EventTag × EventEntry)} {t : EventTag}
    (ht : t ∈ (dispatchEntries p n l).2.map Prod.fst) : t ∈ l.map Prod.fst :=
  (dispatchEntries_perm p n l).subset (List.mem_append_right _ ht)

theorem mountEntries_keys_subset {root : Option SurfaceId} {mt : Int}
    {l : List (EventTag × EventEntry)} {t : EventTag}
    (ht : t ∈ (mountEntries root mt l).1.map Prod.fst) : t ∈ l.map Prod.fst :=
  (mountEntries_perm root mt l).subset (List.mem_append_left _ ht)

theorem mountEntries_tags_subset {root : Option SurfaceId} {mt : Int}
    {l : List (EventTag × EventEntry)} {t : EventTag}
    (ht : t ∈ (mountEntries root mt l).2.map Prod.fst) : t ∈ l.map Prod.fst :=
  (mountEntries_perm root mt l).subset (List.mem_append_right _ ht)

theorem inv_insert {s : LoggerState} {rep : List EventTag} (hinv : Inv s rep)
    (e : EventEntry) :
    Inv ⟨s.eventsInFlight ++ [(s.sCurrentEventTag + 1, e)], s.sCurrentEventTag + 1⟩
      rep := by
  obtain ⟨hKL, hKN, hRL, hRM, hRN⟩ := hinv
  refine ⟨?_, ?_, ?_, ?_, hRN⟩
  · intro q hq
    rcases List.mem_append.mp hq with hq | hq
    · exact Nat.le_trans (hKL q hq) (Nat.le_succ _)
    · simp only [List.mem_singleton] at hq
      rw [hq]
  · rw [List.map_append]
    refine List.nodup_append.mpr ⟨hKN, List.nodup_singleton _, ?_⟩
    intro t ht ht'
    simp only [List.map_cons, List.map_nil, List.mem_singleton] at ht'
    rcases List.mem_map.mp ht with ⟨q, hq, hq'⟩
    have h1 := hKL q hq
    rw [hq'] at h1
    rw [ht'] at h1
    exact Nat.not_succ_le_self _ h1
  · intro t ht
    exact Nat.le_trans (hRL t ht) (Nat.le_succ _)
  · intro t ht
    rw [List.map_append]
    intro hmem
    rcases List.mem_append.mp hmem with hm | hm
    · exact hRM t ht hm
    · simp only [List.map_cons, List.map_nil, List.mem_singleton] at hm
      have h1 := hRL t ht
      rw [hm] at h1
      exact Nat.not_succ_le_self _ h1

theorem inv_update {s : LoggerState} {rep : List EventTag} {tag : EventTag}
    {f : EventEntry → EventEntry} (hinv : Inv s rep) :
    Inv { s with eventsInFlight :=
          s.eventsInFlight.map (fun p => if p.1 = tag then (p.1, f p.2) else p) }
      rep := by
  obtain ⟨hKL, hKN, hRL, hRM, hRN⟩ := hinv
  refine ⟨?_, ?_, hRL, ?_, hRN⟩
  · intro q hq
    obtain ⟨t, e'⟩ := q
    rcases mem_update_src hq with ⟨e, he, _⟩
    exact hKL (t, e) he
  · rw [map_fst_update]
    exact hKN
  · intro t ht
    rw [map_fst_update]
    exact hRM t ht

theorem inv_dispatch {s : LoggerState} {rep : List EventTag}
    {p : List SurfaceId} {n : Int} (hinv : Inv s rep) :
    Inv { s with eventsInFlight := (dispatchEntries p n s.eventsInFlight).1 }
      (rep ++ (dispatchEntries p n s.eventsInFlight).2.map Prod.fst) := by
  obtain ⟨hKL, hKN, hRL, hRM, hRN⟩ := hinv
  have parts := @dispatchEntries_nodup_parts p n s.eventsInFlight hKN
  refine ⟨?_, parts.1, ?_, ?_, ?_⟩
  · intro q hq
    obtain ⟨t, e'⟩ := q
    rcases dispatchEntries_kept_src hq with ⟨e, he, _⟩
    exact hKL (t, e) he
  · intro t ht
    rcases List.mem_append.mp ht with ht | ht
    · exact hRL t ht
    · rcases List.mem_map.mp (dispatchEntries_tags_subset ht) with ⟨q, hq, hq'⟩
      rw [← hq']
      exact hKL q hq
  · intro t ht hmem
    rcases List.mem_append.mp ht with ht | ht
    · exact hRM t ht (dispatchEntries_keys_subset hmem)
    · exact parts.2.2 t ht hmem
  · refine List.nodup_append.mpr ⟨hRN, parts.2.1, ?_⟩
    intro t ht ht'
    exact hRM t ht (dispatchEntries_tags_subset ht')

theorem inv_mount {s : LoggerState} {rep : List EventTag}
    {root : Option SurfaceId} {mt : Int} (hinv : Inv s rep) :
    Inv { s with eventsInFlight := (mountEntries root mt s.eventsInFlight).1 }
      (rep ++ (mountEntries root mt s.eventsInFlight).2.map Prod.fst) := by
  obtain ⟨hKL, hKN, hRL, hRM, hRN⟩ := hinv
  have parts := @mountEntries_nodup_parts root mt s.eventsInFlight hKN
  refine ⟨?_, parts.1, ?_, ?_, ?_⟩
  · intro q hq
    obtain ⟨t, e'⟩ := q
    have := (mountEntries_kept_src hq).1
    exact hKL (t, e') this
  · intro t ht
    rcases List.mem_append.mp ht with ht | ht
    · exact hRL t ht
    · rcases List.mem_map.mp (mountEntries_tags_subset ht) with ⟨q, hq, hq'⟩
      rw [← hq']
      exact hKL q hq
  · intro t ht hmem
    rcases List.mem_append.mp ht with ht | ht
    · exact hRM t ht (mountEntries_keys_subset hmem)
    · exact parts.2.2 t ht hmem
  · refine List.nodup_append.mpr ⟨hRN, parts.2.1, ?_⟩
    intro t ht ht'
    exact hRM t ht (mountEntries_tags_subset ht')

theorem step_inv {h : String → Nat} {s : LoggerState} {rep : List EventTag}
    (op : Op) (hinv : Inv s rep) :
    Inv (step h s op).1 (rep ++ (step h s op).2.map Prod.fst) := by
  cases op with
  | start alive name target ts now =>
    cases alive with
    | false => simpa [step, onEventStart] using hinv
    | true =>
      cases hfind : findSupportedEvent h name with
      | none => simpa [step, onEventStart_none_eq hfind] using hinv
      | some rn =>
        have heq := onEventStart_some_eq hfind target ts now s
        simp only [step, heq, List.map_nil, List.append_nil]
        exact inv_insert hinv _
  | procStart alive tag now =>
    cases alive with
    | false => simpa [step, onEventProcessingStart] using hinv
    | true =>
      have hs : step h s (Op.procStart true tag now) =
          (onEventProcessingStart true tag now s, []) := rfl
      rw [hs]
      simp only [List.map_nil, List.append_nil]
      exact @inv_update s rep tag
        (fun e => { e with processingStartTime := some now }) hinv
  | procEnd alive tag now =>
    cases alive with
    | false => simpa [step, onEventProcessingEnd] using hinv
    | true =>
      have hs : step h s (Op.procEnd true tag now) =
          (onEventProcessingEnd true tag now s, []) := rfl
      rw [hs]
      simp only [List.map_nil, List.append_nil]
      exact @inv_update s rep tag
        (fun e => { e with processingEndTime := some now }) hinv
  | dispatch alive pending now =>
    cases alive with
    | false => simpa [step, dispatchPendingEventTimingEntries] using hinv
    | true =>
      simpa [step, dispatchPendingEventTimingEntries] using inv_dispatch hinv
  | mount alive root mt =>
    cases alive with
    | false => simpa [step, shadowTreeDidMount] using hinv
    | true => simpa [step, shadowTreeDidMount] using inv_mount hinv

theorem run_inv {h : String → Nat} {s : LoggerState} {rep : List EventTag}
    (ops : List Op) (hinv : Inv s rep) :
    Inv (run h s ops).1 (rep ++ (run h s ops).2.map Prod.fst) := by
  induction ops generalizing s rep with
  | nil => simpa [run] using hinv
  | cons op ops ih =>
    have h1 := @step_inv h s rep op hinv
    have h2 := ih h1
    simpa [run, List.map_append, List.append_assoc] using h2

/-! ### Waiting-for-mount records are always ready to report -/

/-- Every record marked waiting-for-mount has both processing timestamps set
(`isWaitingForMount` is only ever set in the dispatch loop, on records that
are ready to dispatch). -/
def WaitReady (s : LoggerState) : Prop :=
  ∀ q ∈ s.eventsInFlight, q.2.isWaitingForMount = true →
    q.2.processingStartTime.isSome = true ∧ q.2.processingEndTime.isSome = true

theorem waitReady_init : WaitReady initState := by
  intro q hq
  simp [initState] at hq

theorem step_waitReady {h : String → Nat} {s : LoggerState} (op : Op)
    (hw : WaitReady s) : WaitReady (step h s op).1 := by
  cases op with
  | start alive name target ts now =>
    cases alive with
    | false => simpa [step, onEventStart] using hw
    | true =>
      cases hfind : findSupportedEvent h name with
      | none => simpa [step, onEventStart_none_eq hfind] using hw
      | some rn =>
        have heq := onEventStart_some_eq hfind target ts now s
        simp only [step, heq]
        intro q hq
        rcases List.mem_append.mp hq with hq | hq
        · exact hw q hq
        · simp only [List.mem_singleton] at hq
          rw [hq]
          intro hflag
          cases hflag
  | procStart alive tag now =>
    cases alive with
    | false => simpa [step, onEventProcessingStart] using hw
    | true =>
      have hs : (step h s (Op.procStart true tag now)).1 =
          onEventProcessingStart true tag now s := rfl
      rw [hs]
      intro q hq
      obtain ⟨t, e'⟩ := q
      rcases procStart_mem_src hq with ⟨e, he, hcase⟩
      rcases hcase with ⟨_, he'⟩ | ⟨_, he'⟩
      · rw [he']
        intro hflag
        have := hw (t, e) he hflag
        exact ⟨rfl, this.2⟩
      · rw [he']
        exact hw (t, e) he
  | procEnd alive tag now =>
    cases alive with
    | false => simpa [step, onEventProcessingEnd] using hw
    | true =>
      have hs : (step h s (Op.procEnd true tag now)).1 =
          onEventProcessingEnd true tag now s := rfl
      rw [hs]
      intro q hq
      obtain ⟨t, e'⟩ := q
      rcases procEnd_mem_src hq with ⟨e, he, hcase⟩
      rcases hcase with ⟨_, he'⟩ | ⟨_, he'⟩
      · rw [he']
        intro hflag
        have := hw (t, e) he hflag
        exact ⟨this.1, rfl⟩
      · rw [he']
        exact hw (t, e) he
  | dispatch alive pending now =>
    cases alive with
    | false => simpa [step, dispatchPendingEventTimingEntries] using hw
    | true =>
      have hs : step h s (Op.dispatch true pending now) =
          ({ s with eventsInFlight :=
              (dispatchEntries pending now s.eventsInFlight).1 },
            (dispatchEntries pending now s.eventsInFlight).2) := rfl
      rw [hs]
      intro q hq
      obtain ⟨t, e'⟩ := q
      rcases dispatchEntries_kept_src hq with ⟨e, he, hcase⟩
      rcases hcase with he' | ⟨he', hready, _, _⟩
      · rw [he']
        exact hw (t, e) he
      · rw [he']
        intro _
        exact (isWaitingForDispatch_false_iff e).mp hready
  | mount alive root mt =>
    cases alive with
    | false => simpa [step, shadowTreeDidMount] using hw
    | true =>
      have hs : step h s (Op.mount true root mt) =
          ({ s with eventsInFlight :=
              (mountEntries root mt s.eventsInFlight).1 },
            (mountEntries root mt s.eventsInFlight).2) := rfl
      rw [hs]
      intro q hq
      obtain ⟨t, e'⟩ := q
      exact hw (t, e') (mountEntries_kept_src hq).1

theorem run_waitReady {h : String → Nat} {s : LoggerState} (ops : List Op)
    (hw : WaitReady s) : WaitReady (run h s ops).1 := by
  induction ops generalizing s with
  | nil => simpa [run] using hw
  | cons op ops ih => exact ih (step_waitReady op hw)

/-- The asserts in the report branch of `dispatchPendingEventTimingEntries`
can never fire: the branch is reached only when `isWaitingForDispatch` is
false, which says exactly that both processing timestamps are set. -/
theorem dispatchEntriesAssertOk_true (p : List SurfaceId)
    (l : List (EventTag × EventEntry)) : dispatchEntriesAssertOk p l = true := by
  induction l with
  | nil => rfl
  | cons hd tl ih =>
    obtain ⟨t, e⟩ := hd
    simp only [dispatchEntriesAssertOk, Bool.and_eq_true]
    refine ⟨?_, ih⟩
    split_ifs with h1 h2
    · rfl
    · rfl
    · obtain ⟨hA, hB⟩ : e.isWaitingForDispatch = false ∧ e.isWaitingForMount = false := by
        simpa using h1
      rcases (isWaitingForDispatch_false_iff e).mp hA with ⟨hs, he⟩
      simp [hs, he]

theorem mountEntriesAssertOk_of {root : Option SurfaceId}
    {l : List (EventTag × EventEntry)}
    (hw : ∀ q ∈ l, q.2.isWaitingForMount = true →
      q.2.processingStartTime.isSome = true ∧ q.2.processingEndTime.isSome = true) :
    mountEntriesAssertOk root l = true := by
  induction l with
  | nil => rfl
  | cons hd tl ih =>
    obtain ⟨t, e⟩ := hd
    simp only [mountEntriesAssertOk, Bool.and_eq_true]
    refine ⟨?_, ih fun q hq => hw q (List.mem_cons_of_mem _ hq)⟩
    split_ifs with h1
    · obtain ⟨hA, hB⟩ := h1
      rcases hw (t, e) (List.mem_cons_self _ _) hA with ⟨hs, he⟩
      simp [hs, he]
    · rfl

/-! ### processingEndTime is never set before processingStartTime -/

/-- The processing-order invariant: a set `processingEndTime` implies a set
`processingStartTime`. -/
def EndImpliesStart (s : LoggerState) : Prop :=
  ∀ q ∈ s.eventsInFlight, q.2.processingEndTime.isSome = true →
    q.2.processingStartTime.isSome = true

theorem endImpliesStart_init : EndImpliesStart initState := by
  intro q hq
  simp [initState] at hq

/-- The `react_native_assert` conditions an entry-point invocation evaluates:
the processing-order assert of `onEventProcessingEnd` and the
timestamps-present asserts of the two finalization loops. -/
def stepAssertOk (s : LoggerState) : Op → Bool
  | .procEnd alive tag _ => onEventProcessingEndAssertOk alive tag s
  | .dispatch alive pending _ =>
    !alive || dispatchEntriesAssertOk pending s.eventsInFlight
  | .mount alive root _ => !alive || mountEntriesAssertOk root s.eventsInFlight
  | _ => true

/-- All asserts hold at every step of a run. -/
def runAssertOk (h : String → Nat) (s : LoggerState) : List Op → Bool
  | [] => true
  | op :: ops => stepAssertOk s op && runAssertOk h (step h s op).1 ops

theorem step_endImpliesStart {h : String → Nat} {s : LoggerState} (op : Op)
    (hnd : (s.eventsInFlight.map Prod.fst).Nodup) (hE : EndImpliesStart s)
    (hA : stepAssertOk s op = true) : EndImpliesStart (step h s op).1 := by
  cases op with
  | start alive name target ts now =>
    cases alive with
    | false => simpa [step, onEventStart] using hE
    | true =>
      cases hfind : findSupportedEvent h name with
      | none => simpa [step, onEventStart_none_eq hfind] using hE
      | some rn =>
        have heq := onEventStart_some_eq hfind target ts now s
        simp only [step, heq]
        intro q hq
        rcases List.mem_append.mp hq with hq | hq
        · exact hE q hq
        · simp only [List.mem_singleton] at hq
          rw [hq]
          intro hend
          cases hend
  | procStart alive tag now =>
    cases alive with
    | false => simpa [step, onEventProcessingStart] using hE
    | true =>
      have hs : (step h s (Op.procStart true tag now)).1 =
          onEventProcessingStart true tag now s := rfl
      rw [hs]
      intro q hq
      obtain ⟨t, e'⟩ := q
      rcases procStart_mem_src hq with ⟨e, he, hcase⟩
      rcases hcase with ⟨_, he'⟩ | ⟨_, he'⟩
      · rw [he']
        intro _
        rfl
      · rw [he']
        exact hE (t, e) he
  | procEnd alive tag now =>
    cases alive with
    | false => simpa [step, onEventProcessingEnd] using hE
    | true =>
      have hs : (step h s (Op.procEnd true tag now)).1 =
          onEventProcessingEnd true tag now s := rfl
      rw [hs]
      intro q hq
      obtain ⟨t, e'⟩ := q
      rcases procEnd_mem_src hq with ⟨e, he, hcase⟩
      rcases hcase with ⟨ht, he'⟩ | ⟨_, he'⟩
      · rw [he']
        intro _
        subst ht
        have hfind := find_of_nodup_keys hnd he
        simpa [stepAssertOk, onEventProcessingEndAssertOk, hfind] using hA
      · rw [he']
        exact hE (t, e) he
  | dispatch alive pending now =>
    cases alive with
    | false => simpa [step, dispatchPendingEventTimingEntries] using hE
    | true =>
      have hs : step h s (Op.dispatch true pending now) =
          ({ s with eventsInFlight :=
              (dispatchEntries pending now s.eventsInFlight).1 },
            (dispatchEntries pending now s.eventsInFlight).2) := rfl
      rw [hs]
      intro q hq
      obtain ⟨t, e'⟩ := q
      rcases dispatchEntries_kept_src hq with ⟨e, he, hcase⟩
      rcases hcase with he' | ⟨he', hready, _, _⟩
      · rw [he']
        exact hE (t, e) he
      · rw [he']
        intro _
        exact ((isWaitingForDispatch_false_iff e).mp hready).1
  | mount alive root mt =>
    cases alive with
    | false => simpa [step, shadowTreeDidMount] using hE
    | true =>
      have hs : step h s (Op.mount true root mt) =
          ({ s with eventsInFlight :=
              (mountEntries root mt s.eventsInFlight).1 },
            (mountEntries root mt s.eventsInFlight).2) := rfl
      rw [hs]
      intro q hq
      obtain ⟨t, e'⟩ := q
      exact hE (t, e') (mountEntries_kept_src hq).1

theorem run_endImpliesStart {h : String → Nat} {s : LoggerState}
    {rep : List EventTag} (ops : List Op) (hinv : Inv s rep)
    (hE : EndImpliesStart s) (hA : runAssertOk h s ops = true) :
    EndImpliesStart (run h s ops).1 := by
  induction ops generalizing s rep with
  | nil => simpa [run] using hE
  | cons op ops ih =>
    rcases Bool.and_eq_true_iff.mp hA with ⟨hA1, hA2⟩
    exact ih (@step_inv h s rep op hinv)
      (step_endImpliesStart op hinv.keysNodup hE hA1) hA2

/-! ### Entry points on an absent tag, and report provenance -/

theorem dispatchPendingEventTimingEntries_true_eq (pending : List SurfaceId)
    (now : Int) (s : LoggerState) :
    dispatchPendingEventTimingEntries true pending now s =
      ({ s with eventsInFlight := (dispatchEntries pending now s.eventsInFlight).1 },
        (dispatchEntries pending now s.eventsInFlight).2) := rfl

theorem shadowTreeDidMount_true_eq (root : Option SurfaceId) (mt : Int)
    (s : LoggerState) :
    shadowTreeDidMount true root mt s =
      ({ s with eventsInFlight := (mountEntries root mt s.eventsInFlight).1 },
        (mountEntries root mt s.eventsInFlight).2) := rfl

theorem onEventProcessingStart_absent {alive : Bool} {tag : EventTag}
    {now : Int} {s : LoggerState}
    (habs : tag ∉ s.eventsInFlight.map Prod.fst) :
    onEventProcessingStart alive tag now s = s := by
  cases alive
  · rfl
  · rw [onEventProcessingStart_true_eq]
    have hmap : s.eventsInFlight.map (fun p =>
        if p.1 = tag then (p.1, { p.2 with processingStartTime := some now })
        else p) = s.eventsInFlight := by
      conv_rhs => rw [← List.map_id s.eventsInFlight]
      refine List.map_congr_left fun p hp => ?_
      have hne : p.1 ≠ tag := fun he => habs (List.mem_map.mpr ⟨p, hp, he⟩)
      simp [hne]
    rw [hmap]

theorem onEventProcessingEnd_absent {alive : Bool} {tag : EventTag}
    {now : Int} {s : LoggerState}
    (habs : tag ∉ s.eventsInFlight.map Prod.fst) :
    onEventProcessingEnd alive tag now s = s := by
  cases alive
  · rfl
  · rw [onEventProcessingEnd_true_eq]
    have hmap : s.eventsInFlight.map (fun p =>
        if p.1 = tag then (p.1, { p.2 with processingEndTime := some now })
        else p) = s.eventsInFlight := by
      conv_rhs => rw [← List.map_id s.eventsInFlight]
      refine List.map_congr_left fun p hp => ?_
      have hne : p.1 ≠ tag := fun he => habs (List.mem_map.mpr ⟨p, hp, he⟩)
      simp [hne]
    rw [hmap]

theorem dispatch_reports_subset {alive : Bool} {pending : List SurfaceId}
    {now : Int} {s : LoggerState} {t : EventTag}
    (ht : t ∈ (dispatchPendingEventTimingEntries alive pending now s).2.map Prod.fst) :
    t ∈ s.eventsInFlight.map Prod.fst := by
  cases alive
  · simp [dispatchPendingEventTimingEntries] at ht
  · rw [dispatchPendingEventTimingEntries_true_eq] at ht
    exact dispatchEntries_tags_subset ht

theorem mount_reports_subset {alive : Bool} {root : Option SurfaceId}
    {mt : Int} {s : LoggerState} {t : EventTag}
    (ht : t ∈ (shadowTreeDidMount alive root mt s).2.map Prod.fst) :
    t ∈ s.eventsInFlight.map Prod.fst := by
  cases alive
  · simp [shadowTreeDidMount] at ht
  · rw [shadowTreeDidMount_true_eq] at ht
    exact mountEntries_tags_subset ht

/-! ### Claim theorems -/

/-- C8: if the weak reference to the reporting sink cannot be obtained
(`performanceEntryReporter_.lock()` returns null), every entry point returns
immediately with the record table unchanged — `onEventStart` additionally
returns the empty tag — and nothing is reported. -/
theorem sinkUnavailableNoOp (h : String → Nat) (name : String)
    (target : Option SurfaceId) (ts : Option Int) (now mt : Int)
    (tag : EventTag) (pending : List SurfaceId) (root : Option SurfaceId)
    (s : LoggerState) :
    onEventStart h false name target ts now s = (EMPTY_EVENT_TAG, s) ∧
    onEventProcessingStart false tag now s = s ∧
    onEventProcessingEnd false tag now s = s ∧
    dispatchPendingEventTimingEntries false pending now s = (s, []) ∧
    shadowTreeDidMount false root mt s = (s, []) :=
  ⟨rfl, rfl, rfl, rfl, rfl⟩

/-- C3: `dispatchPendingEventTimingEntries` never reports a record whose
target's surface id is in the supplied pending-surfaces set; a ready,
not-yet-waiting record with such a target is instead kept with
`isWaitingForMount` set to true. -/
theorem pendingSurfaceDefersReport (pending : List SurfaceId) (now : Int)
    (s : LoggerState) (tag : EventTag) (e : EventEntry)
    (hnd : (s.eventsInFlight.map Prod.fst).Nodup)
    (hmem : (tag, e) ∈ s.eventsInFlight)
    (hpend : hasPendingRenderingUpdates e.target pending = true) :
    tag ∉ (dispatchPendingEventTimingEntries true pending now s).2.map Prod.fst ∧
    (e.isWaitingForDispatch = false → e.isWaitingForMount = false →
      (tag, { e with isWaitingForMount := true }) ∈
        (dispatchPendingEventTimingEntries true pending now s).1.eventsInFlight) := by
  rw [dispatchPendingEventTimingEntries_true_eq]
  refine ⟨?_, fun h1 h2 => dispatchEntries_mem_defer hmem h1 h2 hpend⟩
  refine dispatchEntries_tag_not_reported hnd hmem ?_
  rintro ⟨_, _, hc⟩
  rw [hpend] at hc
  cases hc

/-- C3 witness: a concrete ready record on surface 2 with surface 2 pending
is not reported and is kept marked waiting-for-mount. -/
theorem pendingSurfaceDefersReport_witness :
    hasPendingRenderingUpdates
        (⟨"click", some 2, 0, some 1, some 2, 0, false⟩ : EventEntry).target [2] = true ∧
    1 ∉ (dispatchPendingEventTimingEntries true [2] 9
        ⟨[(1, ⟨"click", some 2, 0, some 1, some 2, 0, false⟩)], 1⟩).2.map Prod.fst ∧
    (1, (⟨"click", some 2, 0, some 1, some 2, 0, true⟩ : EventEntry)) ∈
      (dispatchPendingEventTimingEntries true [2] 9
        ⟨[(1, ⟨"click", some 2, 0, some 1, some 2, 0, false⟩)], 1⟩).1.eventsInFlight := by
  have h := pendingSurfaceDefersReport [2] 9
    ⟨[(1, ⟨"click", some 2, 0, some 1, some 2, 0, false⟩)], 1⟩ 1
    ⟨"click", some 2, 0, some 1, some 2, 0, false⟩
    (by decide) (by decide) (by decide)
  exact ⟨by decide, h.1, h.2 (by decide) (by decide)⟩

/-- C4: `shadowTreeDidMount` reports, with duration `mountTime - startTime`
and the record's name, start time, both processing timestamps and interaction
id, every record marked waiting-for-mount whose target's surface id equals
the root's; it removes exactly those records and keeps every other record
unchanged and unreported. -/
theorem shadowTreeDidMountReportsMatchingWaiters (root : Option SurfaceId)
    (mt : Int) (s : LoggerState) (tag : EventTag) (e : EventEntry)
    (hnd : (s.eventsInFlight.map Prod.fst).Nodup)
    (hmem : (tag, e) ∈ s.eventsInFlight) :
    (∀ ps pe : Int, e.isWaitingForMount = true →
      isTargetInRootShadowNode e.target root = true →
      e.processingStartTime = some ps → e.processingEndTime = some pe →
        (tag, ⟨e.name, e.startTime, mt - e.startTime, ps, pe, e.interactionId⟩) ∈
          (shadowTreeDidMount true root mt s).2 ∧
        tag ∉ (shadowTreeDidMount true root mt s).1.eventsInFlight.map Prod.fst) ∧
    ((e.isWaitingForMount && isTargetInRootShadowNode e.target root) = false →
      (tag, e) ∈ (shadowTreeDidMount true root mt s).1.eventsInFlight ∧
      tag ∉ (shadowTreeDidMount true root mt s).2.map Prod.fst) := by
  rw [shadowTreeDidMount_true_eq]
  constructor
  · intro ps pe h1 h2 hps hpe
    have hrep := @mountEntries_mem_report root mt s.eventsInFlight tag e hmem h1 h2
    have hr : mountReport mt e =
        ⟨e.name, e.startTime, mt - e.startTime, ps, pe, e.interactionId⟩ := by
      simp [mountReport, hps, hpe]
    exact ⟨hr ▸ hrep, mountEntries_tag_removed hnd hmem h1 h2⟩
  · intro hc
    exact ⟨mountEntries_mem_kept hmem hc, mountEntries_tag_not_reported hnd hmem hc⟩

/-- C4 witness: mounting surface 2 at time 50 reports the waiting record on
surface 2 (duration 40 = 50 − 10) and leaves the unready record on surface 3
in place. -/
theorem shadowTreeDidMountReportsMatchingWaiters_witness :
    ((1, (⟨"click", 10, 40, 11, 12, 0⟩ : ReportedEvent)) ∈
        (shadowTreeDidMount true (some 2) 50
          ⟨[(1, ⟨"click", some 2, 10, some 11, some 12, 0, true⟩),
            (2, ⟨"click", some 3, 0, none, none, 0, false⟩)], 2⟩).2 ∧
      1 ∉ (shadowTreeDidMount true (some 2) 50
          ⟨[(1, ⟨"click", some 2, 10, some 11, some 12, 0, true⟩),
            (2, ⟨"click", some 3, 0, none, none, 0, false⟩)], 2⟩).1.eventsInFlight.map Prod.fst) ∧
    ((2, (⟨"click", some 3, 0, none, none, 0, false⟩ : EventEntry)) ∈
        (shadowTreeDidMount true (some 2) 50
          ⟨[(1, ⟨"click", some 2, 10, some 11, some 12, 0, true⟩),
            (2, ⟨"click", some 3, 0, none, none, 0, false⟩)], 2⟩).1.eventsInFlight ∧
      2 ∉ (shadowTreeDidMount true (some 2) 50
          ⟨[(1, ⟨"click", some 2, 10, some 11, some 12, 0, true⟩),
            (2, ⟨"click", some 3, 0, none, none, 0, false⟩)], 2⟩).2.map Prod.fst) := by
  have h1 := shadowTreeDidMountReportsMatchingWaiters (some 2) 50
    ⟨[(1, ⟨"click", some 2, 10, some 11, some 12, 0, true⟩),
      (2, ⟨"click", some 3, 0, none, none, 0, false⟩)], 2⟩ 1
    ⟨"click", some 2, 10, some 11, some 12, 0, true⟩ (by decide) (by decide)
  have h2 := shadowTreeDidMountReportsMatchingWaiters (some 2) 50
    ⟨[(1, ⟨"click", some 2, 10, some 11, some 12, 0, true⟩),
      (2, ⟨"click", some 3, 0, none, none, 0, false⟩)], 2⟩ 2
    ⟨"click", some 3, 0, none, none, 0, false⟩ (by decide) (by decide)
  exact ⟨h1.1 11 12 rfl (by decide) rfl rfl, h2.2 (by decide)⟩

/-- C10: a record with a null target is never considered to have pending
rendering updates, so `dispatchPendingEventTimingEntries` never marks it
waiting-for-mount (any surviving copy is unchanged) and reports and removes
it as soon as both processing timestamps are set, for any pending-surfaces
set; and `shadowTreeDidMount` never reports it, since a null target belongs
to no root's surface. -/
theorem nullTargetNeverWaits (pending : List SurfaceId) (now : Int)
    (root : Option SurfaceId) (mt : Int) (s : LoggerState) (tag : EventTag)
    (e : EventEntry) (hnd : (s.eventsInFlight.map Prod.fst).Nodup)
    (hmem : (tag, e) ∈ s.eventsInFlight) (htgt : e.target = none) :
    (e.isWaitingForDispatch = false → e.isWaitingForMount = false →
      tag ∈ (dispatchPendingEventTimingEntries true pending now s).2.map Prod.fst ∧
      tag ∉ (dispatchPendingEventTimingEntries true pending now s).1.eventsInFlight.map Prod.fst) ∧
    (∀ e', (tag, e') ∈
        (dispatchPendingEventTimingEntries true pending now s).1.eventsInFlight →
      e' = e) ∧
    ((tag, e) ∈ (shadowTreeDidMount true root mt s).1.eventsInFlight ∧
      tag ∉ (shadowTreeDidMount true root mt s).2.map Prod.fst) := by
  have hpend : hasPendingRenderingUpdates e.target pending = false := by
    rw [htgt]; rfl
  have hroot : isTargetInRootShadowNode e.target root = false := by
    rw [htgt]; cases root <;> rfl
  rw [dispatchPendingEventTimingEntries_true_eq, shadowTreeDidMount_true_eq]
  refine ⟨?_, ?_, ?_⟩
  · intro h1 h2
    refine ⟨List.mem_map.mpr ⟨(tag, dispatchReport now e),
      dispatchEntries_mem_report hmem h1 h2 hpend, rfl⟩,
      dispatchEntries_tag_removed hnd hmem h1 h2 hpend⟩
  · intro e' hq
    rcases dispatchEntries_kept_src hq with ⟨e0, he0, hcase⟩
    have he0e : e0 = e := mem_eq_of_nodup_keys hnd he0 hmem
    subst he0e
    rcases hcase with he' | ⟨_, _, _, hc⟩
    · exact he'
    · rw [hpend] at hc
      cases hc
  · exact ⟨mountEntries_mem_kept hmem (by simp [hroot]),
      mountEntries_tag_not_reported hnd hmem (by simp [hroot])⟩

/-- C10 witness: a ready record with a null target is reported by a dispatch
whose pending set is nonempty, and is kept unchanged (never reported) by a
mount. -/
theorem nullTargetNeverWaits_witness :
    ((⟨"click", none, 0, some 1, some 2, 0, false⟩ : EventEntry).target = none) ∧
    (1 ∈ (dispatchPendingEventTimingEntries true [3] 9
        ⟨[(1, ⟨"click", none, 0, some 1, some 2, 0, false⟩)], 1⟩).2.map Prod.fst ∧
      1 ∉ (dispatchPendingEventTimingEntries true [3] 9
        ⟨[(1, ⟨"click", none, 0, some 1, some 2, 0, false⟩)], 1⟩).1.eventsInFlight.map Prod.fst) ∧
    ((1, (⟨"click", none, 0, some 1, some 2, 0, false⟩ : EventEntry)) ∈
        (shadowTreeDidMount true (some 4) 9
          ⟨[(1, ⟨"click", none, 0, some 1, some 2, 0, false⟩)], 1⟩).1.eventsInFlight ∧
      1 ∉ (shadowTreeDidMount true (some 4) 9
          ⟨[(1, ⟨"click", none, 0, some 1, some 2, 0, false⟩)], 1⟩).2.map Prod.fst) := by
  have h := nullTargetNeverWaits [3] 9 (some 4) 9
    ⟨[(1, ⟨"click", none, 0, some 1, some 2, 0, false⟩)], 1⟩ 1
    ⟨"click", none, 0, some 1, some 2, 0, false⟩ (by decide) (by decide) rfl
  exact ⟨rfl, h.1 rfl rfl, h.2.2⟩

/-- C1: over any sequence of entry-point invocations from the initial state,
no tag is ever passed to `reportEvent` twice, every reported tag is absent
from the final table, and any call referencing a tag that is absent from the
table is a no-op (the processing setters leave the state unchanged and the
finalization entry points never report that tag). -/
theorem reportAtMostOncePerTag (h : String → Nat) (ops : List Op) :
    (((run h initState ops).2.map Prod.fst).Nodup ∧
      ∀ t ∈ (run h initState ops).2.map Prod.fst,
        t ∉ (run h initState ops).1.eventsInFlight.map Prod.fst) ∧
    ∀ (alive : Bool) (tag : EventTag) (now mt : Int) (pending : List SurfaceId)
      (root : Option SurfaceId) (s : LoggerState),
      tag ∉ s.eventsInFlight.map Prod.fst →
        onEventProcessingStart alive tag now s = s ∧
        onEventProcessingEnd alive tag now s = s ∧
        tag ∉ (dispatchPendingEventTimingEntries alive pending now s).2.map Prod.fst ∧
        tag ∉ (shadowTreeDidMount alive root mt s).2.map Prod.fst := by
  constructor
  · have hi := @run_inv h initState [] ops inv_init
    simp only [List.nil_append] at hi
    exact ⟨hi.repNodup, hi.repNotMem⟩
  · intro alive tag now mt pending root s habs
    exact ⟨onEventProcessingStart_absent habs, onEventProcessingEnd_absent habs,
      fun hmem => habs (dispatch_reports_subset hmem),
      fun hmem => habs (mount_reports_subset hmem)⟩

/-- C1 witness: a run that starts, processes and flushes one event reports
tag 1 exactly once and leaves the table empty; and the dead tag 5 is a no-op
for the processing setters on the initial state. -/
theorem reportAtMostOncePerTag_witness :
    (((run (fun _ => 0) initState
        [Op.start true "topClick" none none 0, Op.procStart true 1 1,
          Op.procEnd true 1 2, Op.dispatch true [] 7]).2.map Prod.fst).Nodup ∧
      (5 : EventTag) ∉ initState.eventsInFlight.map Prod.fst ∧
      onEventProcessingStart true 5 3 initState = initState) := by
  refine ⟨(reportAtMostOncePerTag (fun _ => 0)
    [Op.start true "topClick" none none 0, Op.procStart true 1 1,
      Op.procEnd true 1 2, Op.dispatch true [] 7]).1.1, by decide, ?_⟩
  exact ((reportAtMostOncePerTag (fun _ => 0) []).2 true 5 3 0 [] none initState
    (by decide)).1

/-- C2: in every state reachable from the initial state through the public
entry points, every waiting-for-mount record has both processing timestamps
set, the timestamp asserts of both finalization loops hold (reportEvent is
called only on records with both timestamps set), and the dispatch loop
leaves every record with a missing timestamp unchanged and unreported. -/
theorem reportsRequireProcessingTimes (h : String → Nat) (ops : List Op)
    (pending : List SurfaceId) (root : Option SurfaceId) :
    WaitReady (run h initState ops).1 ∧
    dispatchEntriesAssertOk pending (run h initState ops).1.eventsInFlight = true ∧
    mountEntriesAssertOk root (run h initState ops).1.eventsInFlight = true ∧
    ∀ (tag : EventTag) (e : EventEntry) (now : Int),
      (tag, e) ∈ (run h initState ops).1.eventsInFlight →
      e.isWaitingForDispatch = true →
        (tag, e) ∈ (dispatchPendingEventTimingEntries true pending now
          (run h initState ops).1).1.eventsInFlight ∧
        tag ∉ (dispatchPendingEventTimingEntries true pending now
          (run h initState ops).1).2.map Prod.fst := by
  have hw := @run_waitReady h initState ops waitReady_init
  have hnd := (@run_inv h initState [] ops inv_init).keysNodup
  refine ⟨hw, dispatchEntriesAssertOk_true _ _, mountEntriesAssertOk_of hw, ?_⟩
  intro tag e now hmem hwd
  rw [dispatchPendingEventTimingEntries_true_eq]
  refine ⟨dispatchEntries_mem_skip hmem (by simp [hwd]), ?_⟩
  refine dispatchEntries_tag_not_reported hnd hmem ?_
  rintro ⟨hc, _, _⟩
  rw [hwd] at hc
  cases hc

/-- C2 witness: after starting one event (both processing timestamps still
missing), the reachable state satisfies the invariant and a dispatch keeps
the unready record unchanged and unreported. -/
theorem reportsRequireProcessingTimes_witness :
    mountEntriesAssertOk (some 1)
        (run (fun _ => 0) initState [Op.start true "topClick" none none 0]).1.eventsInFlight = true ∧
    ((1, (⟨"auxclick", none, 0, none, none, 0, false⟩ : EventEntry)) ∈
        (dispatchPendingEventTimingEntries true [] 7
          (run (fun _ => 0) initState [Op.start true "topClick" none none 0]).1).1.eventsInFlight ∧
      1 ∉ (dispatchPendingEventTimingEntries true [] 7
          (run (fun _ => 0) initState [Op.start true "topClick" none none 0]).1).2.map Prod.fst) := by
  have h := reportsRequireProcessingTimes (fun _ => 0)
    [Op.start true "topClick" none none 0] [] (some 1)
  exact ⟨h.2.2.1, h.2.2.2 1 ⟨"auxclick", none, 0, none, none, 0, false⟩ 7
    (by decide) (by decide)⟩

/-- C7: a record marked waiting-for-mount survives every entry point with the
flag still set, unless the entry point is `shadowTreeDidMount` and it reports
(and erases) the record; and `dispatchPendingEventTimingEntries` always keeps
a waiting-for-mount record unchanged and never reports it. -/
theorem isWaitingForMountMonotone (h : String → Nat) (s : LoggerState)
    (op : Op) (tag : EventTag) (e : EventEntry)
    (hnd : (s.eventsInFlight.map Prod.fst).Nodup)
    (hmem : (tag, e) ∈ s.eventsInFlight)
    (hflag : e.isWaitingForMount = true) :
    ((∃ e', (tag, e') ∈ (step h s op).1.eventsInFlight ∧
        e'.isWaitingForMount = true) ∨
      (tag ∈ (step h s op).2.map Prod.fst ∧
        ∃ alive root mt, op = Op.mount alive root mt)) ∧
    ∀ (pending : List SurfaceId) (now : Int),
      (tag, e) ∈
          (dispatchPendingEventTimingEntries true pending now s).1.eventsInFlight ∧
      tag ∉ (dispatchPendingEventTimingEntries true pending now s).2.map Prod.fst := by
  constructor
  · cases op with
    | start alive name target ts now =>
      cases alive with
      | false => exact Or.inl ⟨e, hmem, hflag⟩
      | true =>
        cases hfind : findSupportedEvent h name with
        | none =>
          refine Or.inl ⟨e, ?_, hflag⟩
          have hs : (step h s (Op.start true name target ts now)).1 = s := by
            simp [step, onEventStart_none_eq hfind]
          rw [hs]
          exact hmem
        | some rn =>
          refine Or.inl ⟨e, ?_, hflag⟩
          have hs := onEventStart_some_eq hfind target ts now s
          simp only [step, hs]
          exact List.mem_append_left _ hmem
    | procStart alive tag0 now =>
      cases alive with
      | false => exact Or.inl ⟨e, hmem, hflag⟩
      | true =>
        have hs : (step h s (Op.procStart true tag0 now)).1 =
            onEventProcessingStart true tag0 now s := rfl
        rw [hs, onEventProcessingStart_true_eq]
        by_cases htag : tag = tag0
        · refine Or.inl ⟨{ e with processingStartTime := some now },
            List.mem_map.mpr ⟨(tag, e), hmem, by simp [htag]⟩, ?_⟩
          simpa using hflag
        · exact Or.inl ⟨e, List.mem_map.mpr ⟨(tag, e), hmem, by simp [htag]⟩, hflag⟩
    | procEnd alive tag0 now =>
      cases alive with
      | false => exact Or.inl ⟨e, hmem, hflag⟩
      | true =>
        have hs : (step h s (Op.procEnd true tag0 now)).1 =
            onEventProcessingEnd true tag0 now s := rfl
        rw [hs, onEventProcessingEnd_true_eq]
        by_cases htag : tag = tag0
        · refine Or.inl ⟨{ e with processingEndTime := some now },
            List.mem_map.mpr ⟨(tag, e), hmem, by simp [htag]⟩, ?_⟩
          simpa using hflag
        · exact Or.inl ⟨e, List.mem_map.mpr ⟨(tag, e), hmem, by simp [htag]⟩, hflag⟩
    | dispatch alive pending now =>
      cases alive with
      | false => exact Or.inl ⟨e, hmem, hflag⟩
      | true =>
        refine Or.inl ⟨e, ?_, hflag⟩
        have hs : (step h s (Op.dispatch true pending now)).1.eventsInFlight =
            (dispatchEntries pending now s.eventsInFlight).1 := rfl
        rw [hs]
        exact dispatchEntries_mem_skip hmem (by simp [hflag])
    | mount alive root mt =>
      cases alive with
      | false => exact Or.inl ⟨e, hmem, hflag⟩
      | true =>
        have hs2 : (step h s (Op.mount true root mt)).2 =
            (mountEntries root mt s.eventsInFlight).2 := rfl
        have hs1 : (step h s (Op.mount true root mt)).1.eventsInFlight =
            (mountEntries root mt s.eventsInFlight).1 := rfl
        by_cases hroot : isTargetInRootShadowNode e.target root = true
        · refine Or.inr ⟨?_, true, root, mt, rfl⟩
          rw [hs2]
          exact List.mem_map.mpr ⟨(tag, mountReport mt e),
            mountEntries_mem_report hmem hflag hroot, rfl⟩
        · refine Or.inl ⟨e, ?_, hflag⟩
          rw [hs1]
          refine mountEntries_mem_kept hmem ?_
          simp [Bool.not_eq_true _ ▸ hroot]
  · intro pending now
    rw [dispatchPendingEventTimingEntries_true_eq]
    refine ⟨dispatchEntries_mem_skip hmem (by simp [hflag]), ?_⟩
    refine dispatchEntries_tag_not_reported hnd hmem ?_
    rintro ⟨_, hc, _⟩
    rw [hflag] at hc
    cases hc

/-- C7 witness: a waiting-for-mount record survives `onEventProcessingStart`
on another tag with the flag still set, and a dispatch keeps it unchanged and
unreported. -/
theorem isWaitingForMountMonotone_witness :
    ((∃ e', (1, e') ∈ (step (fun _ => 0)
        ⟨[(1, ⟨"click", some 2, 0, some 1, some 2, 0, true⟩)], 1⟩
        (Op.procStart true 3 5)).1.eventsInFlight ∧
        e'.isWaitingForMount = true) ∨
      (1 ∈ (step (fun _ => 0)
        ⟨[(1, ⟨"click", some 2, 0, some 1, some 2, 0, true⟩)], 1⟩
        (Op.procStart true 3 5)).2.map Prod.fst ∧
        ∃ alive root mt, Op.procStart true 3 5 = Op.mount alive root mt)) ∧
    ((1, (⟨"click", some 2, 0, some 1, some 2, 0, true⟩ : EventEntry)) ∈
        (dispatchPendingEventTimingEntries true [2] 9
          ⟨[(1, ⟨"click", some 2, 0, some 1, some 2, 0, true⟩)], 1⟩).1.eventsInFlight ∧
      1 ∉ (dispatchPendingEventTimingEntries true [2] 9
          ⟨[(1, ⟨"click", some 2, 0, some 1, some 2, 0, true⟩)], 1⟩).2.map Prod.fst) := by
  have h := isWaitingForMountMonotone (fun _ => 0)
    ⟨[(1, ⟨"click", some 2, 0, some 1, some 2, 0, true⟩)], 1⟩
    (Op.procStart true 3 5) 1 ⟨"click", some 2, 0, some 1, some 2, 0, true⟩
    (by decide) (by decide) rfl
  exact ⟨h.1, h.2 [2] 9⟩

/-- C9: if none of the asserts fires along a run from the initial state, then
in the resulting state a set `processingEndTime` implies a set
`processingStartTime`; the `onEventProcessingEnd` assert on a present tag
holds exactly when that record's `processingStartTime` is set; and after
`onEventProcessingStart` on a tag, every record stored under that tag has
`processingStartTime` set (so a subsequent `onEventProcessingEnd` assert
cannot fire for it). -/
theorem processingEndRequiresStart (h : String → Nat) (ops : List Op) :
    (runAssertOk h initState ops = true →
      EndImpliesStart (run h initState ops).1) ∧
    (∀ (tag : EventTag) (s : LoggerState) (e : EventEntry),
      (s.eventsInFlight.map Prod.fst).Nodup → (tag, e) ∈ s.eventsInFlight →
        (onEventProcessingEndAssertOk true tag s = true ↔
          e.processingStartTime.isSome = true)) ∧
    (∀ (tag : EventTag) (now : Int) (s : LoggerState) (e : EventEntry),
      (tag, e) ∈ (onEventProcessingStart true tag now s).eventsInFlight →
        e.processingStartTime.isSome = true) := by
  refine ⟨fun hA => run_endImpliesStart ops inv_init endImpliesStart_init hA,
    ?_, ?_⟩
  · intro tag s e hnd hmem
    have hfind := find_of_nodup_keys hnd hmem
    simp [onEventProcessingEndAssertOk, hfind]
  · intro tag now s e hq
    rcases procStart_mem_src hq with ⟨e0, _, hcase⟩
    rcases hcase with ⟨_, he'⟩ | ⟨hne, _⟩
    · rw [he']
      rfl
    · exact absurd rfl hne

/-- C9 witness: a run that calls processingStart before processingEnd passes
every assert and its final state satisfies the processing-order invariant;
and the processingEnd assert holds on a record whose start time is set. -/
theorem processingEndRequiresStart_witness :
    (runAssertOk (fun _ => 0) initState
        [Op.start true "topClick" none none 0, Op.procStart true 1 1,
          Op.procEnd true 1 2] = true ∧
      EndImpliesStart (run (fun _ => 0) initState
        [Op.start true "topClick" none none 0, Op.procStart true 1 1,
          Op.procEnd true 1 2]).1) ∧
    (onEventProcessingEndAssertOk true 1
        ⟨[(1, ⟨"click", some 2, 0, some 1, none, 0, false⟩)], 1⟩ = true ↔
      (⟨"click", some 2, 0, some 1, none, 0, false⟩ : EventEntry).processingStartTime.isSome = true) := by
  refine ⟨⟨by decide, (processingEndRequiresStart (fun _ => 0)
    [Op.start true "topClick" none none 0, Op.procStart true 1 1,
      Op.procEnd true 1 2]).1 (by decide)⟩, ?_⟩
  exact (processingEndRequiresStart (fun _ => 0) []).2.1 1
    ⟨[(1, ⟨"click", some 2, 0, some 1, none, 0, false⟩)], 1⟩
    ⟨"click", some 2, 0, some 1, none, 0, false⟩ (by decide) (by decide)

/-- C5 counterexample: the registry compares only precomputed hash keys
(`StrKey::operator==`), so under a hash that collides, the raw name
"definitelynotanevent" — which is not string-equal to any supported name —
still gets a non-zero tag and a new record, contradicting "returns the empty
tag with the table unchanged for every unsupported raw name". -/
theorem onEventStartUnsupportedNameTracked :
    ("definitelynotanevent" ∉ SUPPORTED_EVENTS.map Prod.fst) ∧
    (onEventStart (fun _ => 0) true "definitelynotanevent" none none 0
        initState).1 ≠ EMPTY_EVENT_TAG ∧
    (onEventStart (fun _ => 0) true "definitelynotanevent" none none 0
        initState).2.eventsInFlight ≠ initState.eventsInFlight := by
  refine ⟨by decide, by decide, by decide⟩

/-- C5 amended: when the sink is alive, `onEventStart` returns the fresh
non-zero tag counter+1 and appends exactly one record for every raw name that
is string-equal to a registered supported name (the record carries the
registry's public name provided no other registry key's hash collides with
the name's hash, the target, and the explicit-or-current start time); and it
returns the empty tag with the state unchanged for every raw name whose hash
differs from the hash of every registered name (rather than for every raw
name that is merely not string-equal to one). -/
theorem onEventStartClassification (h : String → Nat) (name rn : String)
    (target : Option SurfaceId) (ts : Option Int) (now : Int)
    (s : LoggerState) :
    ((name, rn) ∈ SUPPORTED_EVENTS →
      (∀ p ∈ SUPPORTED_EVENTS, h p.1 = h name → p.2 = rn) →
      onEventStart h true name target ts now s =
        (s.sCurrentEventTag + 1,
          ⟨s.eventsInFlight ++
            [(s.sCurrentEventTag + 1,
              ⟨rn, target, ts.getD now, none, none, 0, false⟩)],
            s.sCurrentEventTag + 1⟩) ∧
      s.sCurrentEventTag + 1 ≠ EMPTY_EVENT_TAG) ∧
    ((∀ p ∈ SUPPORTED_EVENTS, h p.1 ≠ h name) →
      onEventStart h true name target ts now s = (EMPTY_EVENT_TAG, s)) := by
  constructor
  · intro hmem hres
    cases hfind : SUPPORTED_EVENTS.find? (fun p => h p.1 == h name) with
    | none =>
      exact absurd (by simp)
        (List.find?_eq_none.mp hfind (name, rn) hmem)
    | some q =>
      have hq1 : q ∈ SUPPORTED_EVENTS := List.mem_of_find?_eq_some hfind
      have hq2 :=
        @List.find?_some (String × String) (fun p => h p.1 == h name) q
          SUPPORTED_EVENTS hfind
      have hq3 : q.2 = rn := hres q hq1 (by simpa using hq2)
      have hF : findSupportedEvent h name = some rn := by
        simp [findSupportedEvent, hfind, hq3]
      exact ⟨onEventStart_some_eq hF target ts now s, Nat.succ_ne_zero _⟩
  · intro hno
    have hF : findSupportedEvent h name = none := by
      simp only [findSupportedEvent, Option.map_eq_none']
      refine List.find?_eq_none.mpr fun p hp => ?_
      simp [hno p hp]
    exact onEventStart_none_eq hF target ts now s

/-- C5 witness: under a hash with no relevant collisions, the supported name
"topClick" gets tag 1 and one record named "click", and the raw name "zz"
(whose hash differs from every registered key's) gets the empty tag with the
state unchanged. -/
theorem onEventStartClassification_witness :
    onEventStart (fun t => if t = "topClick" then 1 else 0) true "topClick"
        (some 7) none 3 initState =
      (1, ⟨[(1, ⟨"click", some 7, 3, none, none, 0, false⟩)], 1⟩) ∧
    onEventStart (fun t => t.length) true "zz"
        none none 3 initState = (EMPTY_EVENT_TAG, initState) := by
  constructor
  · exact ((onEventStartClassification (fun t => if t = "topClick" then 1 else 0)
      "topClick" "click" (some 7) none 3 initState).1 (by decide) (by decide)).1
  · exact (onEventStartClassification (fun t => t.length)
      "zz" "" none none 3 initState).2 (by decide)

/-- C6 counterexample: classification is not by exact string match — with a
hash under which the raw name "anothernonevent" collides with a supported
key, `onEventStart` tracks it (non-zero tag, record inserted) even though it
is not string-equal to any registered supported name, contradicting "even if
that name's precomputed hash value equals the hash of a supported name [it
returns the empty tag]". -/
theorem onEventStartHashCollisionTracked :
    ("anothernonevent" ∉ SUPPORTED_EVENTS.map Prod.fst) ∧
    (∃ p ∈ SUPPORTED_EVENTS, (fun (_ : String) => 42) p.1 =
      (fun (_ : String) => 42) "anothernonevent") ∧
    (onEventStart (fun _ => 42) true "anothernonevent" none none 0
        initState).1 ≠ EMPTY_EVENT_TAG ∧
    (onEventStart (fun _ => 42) true "anothernonevent" none none 0
        initState).2.eventsInFlight ≠ [] := by
  refine ⟨by decide, ⟨("topAuxClick", "auxclick"), by decide, rfl⟩, by decide,
    by decide⟩

/-- C6 amended: `onEventStart` classifies the raw event name by equality of
precomputed hash keys, not by string equality: it returns the empty tag and
tracks nothing exactly when the name's hash differs from the hash of every
registered supported name, and whenever the hash matches some registered
key's hash (in particular for every registered name itself, but also for
colliding unregistered names) it returns the fresh non-zero tag and inserts
one record carrying the matched entry's public name. -/
theorem eventNameClassifiedByHashKey (h : String → Nat) (name : String)
    (target : Option SurfaceId) (ts : Option Int) (now : Int)
    (s : LoggerState) :
    (findSupportedEvent h name = none ↔
      ∀ p ∈ SUPPORTED_EVENTS, h p.1 ≠ h name) ∧
    (findSupportedEvent h name = none →
      onEventStart h true name target ts now s = (EMPTY_EVENT_TAG, s)) ∧
    (∀ rn, findSupportedEvent h name = some rn →
      (onEventStart h true name target ts now s).1 = s.sCurrentEventTag + 1 ∧
      (onEventStart h true name target ts now s).1 ≠ EMPTY_EVENT_TAG ∧
      (onEventStart h true name target ts now s).2.eventsInFlight =
        s.eventsInFlight ++
          [(s.sCurrentEventTag + 1,
            ⟨rn, target, ts.getD now, none, none, 0, false⟩)]) := by
  refine ⟨?_, ?_, ?_⟩
  · simp only [findSupportedEvent, Option.map_eq_none', List.find?_eq_none]
    constructor
    · intro hf p hp
      simpa using hf p hp
    · intro hf p hp
      simp [hf p hp]
  · intro hF
    exact onEventStart_none_eq hF target ts now s
  · intro rn hF
    rw [onEventStart_some_eq hF target ts now s]
    exact ⟨rfl, Nat.succ_ne_zero _, rfl⟩

/-- C6 witness: with the length hash, "zz" matches no registered key and gets
the empty tag with nothing tracked, while "topClick" matches and is tracked
under the matched entry's public name. -/
theorem eventNameClassifiedByHashKey_witness :
    onEventStart (fun t => t.length) true "zz" none none 4 initState =
      (EMPTY_EVENT_TAG, initState) ∧
    (onEventStart (fun t => t.length) true "topClick" none none 4
        initState).1 ≠ EMPTY_EVENT_TAG := by
  constructor
  · exact (eventNameClassifiedByHashKey (fun t => t.length) "zz" none none 4
      initState).2.1 (by decide)
  · exact ((eventNameClassifiedByHashKey (fun t => t.length) "topClick" none
      none 4 initState).2.2 "click" (by decide)).2.1

end EventPerformanceLogger
